import Mathlib

/-!
Verification of the reference-resolution and reconciliation engine of the
copilot-sync repository, via a shallow embedding of the Go source in Lean.

Go strings are modelled as `List Char` (`GoStr`); Go byte-wise string
comparison coincides with code-point comparison because UTF-8 byte order
preserves code-point order.  Fallible operations return `Except`, Go maps
are modelled as association lists with unique keys, the filesystem is a
partial map from paths to contents, and external collaborators (HTTP host,
filesystem error outcomes) are explicit functional parameters.
-/

/-- Model of a Go string: its list of characters. -/
abbrev GoStr := List Char

/-- Converts a Lean string literal to the `GoStr` model. -/
def str (s : String) : GoStr := s.data

/-- Model of `strings.SplitN(s, c, …)`'s basic step: split `s` at the first
occurrence of the character `c`, returning the parts before and after it,
or `none` when `c` does not occur. -/
def splitFirst (c : Char) : GoStr → Option (GoStr × GoStr)
  | [] => none
  | x :: xs =>
    if x = c then some ([], xs)
    else (splitFirst c xs).map (fun pq => (x :: pq.1, pq.2))

/-- Model of Go `strings.SplitN(s, string(c), n)` for a single-character
separator: at most `n` substrings, the last one holding the unsplit rest. -/
def splitN (c : Char) : Nat → GoStr → List GoStr
  | 0, _ => []
  | 1, s => [s]
  | n + 2, s =>
    match splitFirst c s with
    | none => [s]
    | some pq => pq.1 :: splitN c (n + 1) pq.2

/-- Model of Go `strings.TrimPrefix(s, pre)`: drops `pre` when it is a
prefix of `s`, otherwise returns `s` unchanged. -/
def trimPrefix (s pre : GoStr) : GoStr :=
  if pre.isPrefixOf s then s.drop pre.length else s

/-- Model of Go `strings.HasSuffix(s, suf)`. -/
def hasSuffix (s suf : GoStr) : Bool := suf.isSuffixOf s

/-- Model of `filepath.Join` on two components (path cleaning of dot
segments, which no engine input exercises, is not modelled). -/
def goJoin2 (a b : GoStr) : GoStr :=
  if a = [] then b else if b = [] then a else a ++ '/' :: b

/-- Characters of `s` after its trailing slashes are removed. -/
def dropTrailingSlashes (s : GoStr) : GoStr :=
  (s.reverse.dropWhile (fun c => decide (c = '/'))).reverse

/-- Model of Go `filepath.Base`: the last element of the path, after
trailing slashes are removed; "." for the empty path, "/" for all-slashes. -/
def goBase (s : GoStr) : GoStr :=
  if s = [] then str "."
  else
    let t := dropTrailingSlashes s
    if t = [] then str "/"
    else (t.reverse.takeWhile (fun c => decide (¬ c = '/'))).reverse

/-- Model of Go `filepath.Dir`: everything before the last path element,
"." when there is no separator (dot-segment cleaning not modelled). -/
def goDir (s : GoStr) : GoStr :=
  let pre := (s.reverse.dropWhile (fun c => decide (¬ c = '/'))).reverse
  let t := dropTrailingSlashes pre
  if t = [] then (if pre = [] then str "." else str "/") else t

/-- Model of the Go byte-wise string comparison used by `sort.Strings`,
as a boolean less-or-equal on `GoStr`. -/
def strLe : GoStr → GoStr → Bool
  | [], _ => true
  | _ :: _, [] => false
  | c :: cs, d :: ds => if c < d then true else if d < c then false else strLe cs ds

/-- The order relation on `GoStr` induced by `strLe`. -/
def strLeProp (a b : GoStr) : Prop := strLe a b = true

instance : DecidableRel strLeProp := fun a b =>
  inferInstanceAs (Decidable (strLe a b = true))

/-- Model of Go `sort.Strings`: sorts a list of strings in ascending
byte-wise lexicographic order. -/
def sortStrings (l : List GoStr) : List GoStr := l.insertionSort strLeProp

/-- Go-map lookup on an association-list model of a `map[string]V`. -/
def mapGet {α : Type} (l : List (GoStr × α)) (k : GoStr) : Option α :=
  (l.find? (fun kv => decide (kv.1 = k))).map (fun kv => kv.2)

/-- Go-map assignment on an association-list model: replaces any existing
binding of the key. -/
def mapSet {α : Type} (l : List (GoStr × α)) (k : GoStr) (v : α) : List (GoStr × α) :=
  (k, v) :: l.filter (fun kv => decide (kv.1 ≠ k))

/-- Go-map deletion on an association-list model. -/
def mapDelete {α : Type} (l : List (GoStr × α)) (k : GoStr) : List (GoStr × α) :=
  l.filter (fun kv => decide (kv.1 ≠ k))

/-!  Reference parser (internal/config/types.go). -/

/-- Parsed asset reference, from `config.AssetRef`:
organisation, repository, path inside the repository, and git ref. -/
structure AssetRef where
  org : GoStr
  repo : GoStr
  path : GoStr
  ref : GoStr
deriving DecidableEq, Repr

/-- Parse failure of `config.ParseRef`: an invalid reference error carrying
the offending raw string. -/
inductive ParseErr where
  | invalidReference (raw : GoStr)
deriving DecidableEq, Repr

instance {ε α : Type} [DecidableEq ε] [DecidableEq α] : DecidableEq (Except ε α) :=
  fun x y =>
  match x, y with
  | .ok a, .ok b =>
    if h : a = b then isTrue (by rw [h]) else isFalse (fun hc => h (by injection hc))
  | .ok _, .error _ => isFalse (fun hc => Except.noConfusion hc)
  | .error _, .ok _ => isFalse (fun hc => Except.noConfusion hc)
  | .error e, .error f =>
    if h : e = f then isTrue (by rw [h]) else isFalse (fun hc => h (by injection hc))

/-- Model of `config.ParseRef`: splits the raw string on the first "@" into
path part and ref, requires a non-empty ref, then splits the path part into
at most three "/"-segments and requires all three to be non-empty. -/
def parseRef (raw : GoStr) : Except ParseErr AssetRef :=
  match splitN '@' 2 raw with
  | [pathPart, refPart] =>
    if refPart = [] then .error (.invalidReference raw)
    else
      match splitN '/' 3 pathPart with
      | [org, repo, path] =>
        if org = [] ∨ repo = [] ∨ path = [] then .error (.invalidReference raw)
        else .ok ⟨org, repo, path, refPart⟩
      | _ => .error (.invalidReference raw)
  | _ => .error (.invalidReference raw)

/-- Model of `AssetRef.Raw`: the canonical serialization
"org/repo/path@ref". -/
def rawStr (r : AssetRef) : GoStr :=
  r.org ++ ('/' :: (r.repo ++ ('/' :: (r.path ++ ('@' :: r.ref)))))

/-!  Lemmas about splitting. -/

theorem splitFirst_eq_some {c : Char} {s a b : GoStr}
    (h : splitFirst c s = some (a, b)) : s = a ++ c :: b ∧ c ∉ a := by
  induction s generalizing a with
  | nil => simp [splitFirst] at h
  | cons x xs ih =>
    by_cases hx : x = c
    · rw [splitFirst, if_pos hx] at h
      simp only [Option.some.injEq, Prod.mk.injEq] at h
      obtain ⟨h1, h2⟩ := h
      subst hx
      rw [← h1, ← h2]
      simp
    · rw [splitFirst, if_neg hx] at h
      rcases hsf : splitFirst c xs with _ | ⟨p, q⟩ <;> rw [hsf] at h
      · simp at h
      · simp only [Option.map_some', Option.some.injEq, Prod.mk.injEq] at h
        obtain ⟨h1, h2⟩ := h
        subst h2
        obtain ⟨hs, hmem⟩ := ih hsf
        subst h1
        constructor
        · simp [hs]
        · intro hc
          rcases List.mem_cons.mp hc with h' | h'
          · exact hx h'.symm
          · exact hmem h'

theorem splitFirst_append {c : Char} {a : GoStr} (b : GoStr) (h : c ∉ a) :
    splitFirst c (a ++ c :: b) = some (a, b) := by
  induction a with
  | nil => simp [splitFirst]
  | cons x xs ih =>
    have hx : ¬ x = c := by
      intro hc; exact h (by simp [hc])
    have hxs : c ∉ xs := fun hm => h (List.mem_cons_of_mem _ hm)
    simp [splitFirst, hx, ih hxs]

theorem splitFirst_eq_none {c : Char} {s : GoStr}
    (h : c ∉ s) : splitFirst c s = none := by
  induction s with
  | nil => rfl
  | cons x xs ih =>
    have hx : ¬ x = c := fun hc => h (by simp [hc])
    have hxs : c ∉ xs := fun hm => h (List.mem_cons_of_mem _ hm)
    simp [splitFirst, hx, ih hxs]

theorem splitN_two_eq {c : Char} {s a b : GoStr}
    (h : splitN c 2 s = [a, b]) : splitFirst c s = some (a, b) := by
  unfold splitN at h
  rcases hsf : splitFirst c s with _ | ⟨p, q⟩ <;> rw [hsf] at h
  · simp at h
  · simp [splitN] at h
    simp [h.1, h.2]

theorem splitN_three_eq {c : Char} {s a b d : GoStr}
    (h : splitN c 3 s = [a, b, d]) :
    splitFirst c s = some (a, b ++ c :: d) ∧ c ∉ b := by
  unfold splitN at h
  rcases hsf : splitFirst c s with _ | ⟨p, q⟩ <;> rw [hsf] at h
  · simp at h
  · simp only [List.cons.injEq] at h
    obtain ⟨hp, h2⟩ := h
    have h2' : splitN c 2 q = [b, d] := h2
    obtain ⟨hq, hmem⟩ := splitFirst_eq_some (splitN_two_eq h2')
    subst hp
    exact ⟨by rw [hq], hmem⟩

/-- Characterisation of a successful parse: `raw` decomposes at its first
"@" into a front part and a non-empty ref, and the front part decomposes at
its first two "/" separators into non-empty organisation, repository and
path.  This is the specification-level statement of the accepted grammar. -/
def specParseOk (raw : GoStr) : Prop :=
  ∃ org repo path refv : GoStr,
    raw = (org ++ ('/' :: (repo ++ ('/' :: path)))) ++ ('@' :: refv) ∧
    '@' ∉ org ++ ('/' :: (repo ++ ('/' :: path))) ∧
    '/' ∉ org ∧ '/' ∉ repo ∧
    org ≠ [] ∧ repo ≠ [] ∧ path ≠ [] ∧ refv ≠ []

theorem parseRef_ok_elim {raw : GoStr} {r : AssetRef}
    (hr : parseRef raw = .ok r) :
    ∃ pathPart, splitN '@' 2 raw = [pathPart, r.ref] ∧ r.ref ≠ [] ∧
      splitN '/' 3 pathPart = [r.org, r.repo, r.path] ∧
      r.org ≠ [] ∧ r.repo ≠ [] ∧ r.path ≠ [] := by
  unfold parseRef at hr
  split at hr
  case h_2 => exact absurd hr (by simp)
  case h_1 pathPart refPart heq =>
    split at hr
    case isTrue => exact absurd hr (by simp)
    case isFalse hrefe =>
      split at hr
      case h_2 => exact absurd hr (by simp)
      case h_1 org repo path heq3 =>
        split at hr
        case isTrue => exact absurd hr (by simp)
        case isFalse hemp =>
          push_neg at hemp
          simp only [Except.ok.injEq] at hr
          subst hr
          exact ⟨pathPart, heq, hrefe, heq3, hemp.1, hemp.2.1, hemp.2.2⟩

theorem parseRef_ok_iff {raw : GoStr} :
    (∃ r, parseRef raw = .ok r) ↔ specParseOk raw := by
  constructor
  · rintro ⟨r, hr⟩
    obtain ⟨pathPart, h2, hrefe, h3, hO, hR, hP⟩ := parseRef_ok_elim hr
    obtain ⟨hraw, hnoAt⟩ := splitFirst_eq_some (splitN_two_eq h2)
    obtain ⟨hsf3, hnoSlashRepo⟩ := splitN_three_eq h3
    obtain ⟨hpp, hnoSlashOrg⟩ := splitFirst_eq_some hsf3
    refine ⟨r.org, r.repo, r.path, r.ref, ?_, ?_, hnoSlashOrg, hnoSlashRepo,
      hO, hR, hP, hrefe⟩
    · rw [hraw, hpp]
    · rw [hpp] at hnoAt
      exact hnoAt
  · rintro ⟨org, repo, path, refv, hraw, hnoAt, hnoO, hnoR, hO, hR, hP, hRef⟩
    refine ⟨⟨org, repo, path, refv⟩, ?_⟩
    have h1 : splitFirst '@' raw = some (org ++ ('/' :: (repo ++ ('/' :: path))), refv) := by
      rw [hraw]; exact splitFirst_append _ hnoAt
    have h2 : splitN '@' 2 raw = [org ++ ('/' :: (repo ++ ('/' :: path))), refv] := by
      unfold splitN; rw [h1]; rfl
    have h3 : splitFirst '/' (org ++ ('/' :: (repo ++ ('/' :: path)))) =
        some (org, repo ++ ('/' :: path)) := splitFirst_append _ hnoO
    have h4 : splitFirst '/' (repo ++ ('/' :: path)) = some (repo, path) :=
      splitFirst_append _ hnoR
    have h5 : splitN '/' 3 (org ++ ('/' :: (repo ++ ('/' :: path)))) = [org, repo, path] := by
      unfold splitN; rw [h3]
      show org :: splitN '/' 2 (repo ++ ('/' :: path)) = _
      unfold splitN; rw [h4]
      rfl
    unfold parseRef
    rw [h2]
    simp only [if_neg hRef]
    rw [h5]
    simp [hO, hR, hP]

theorem parseRef_error_shape {raw : GoStr} {e : ParseErr}
    (h : parseRef raw = .error e) : e = .invalidReference raw := by
  unfold parseRef at h
  split at h
  case h_2 => injection h with h; exact h.symm
  case h_1 =>
    split at h
    case isTrue => injection h with h; exact h.symm
    case isFalse =>
      split at h
      case h_2 => injection h with h; exact h.symm
      case h_1 =>
        split at h
        case isTrue => injection h with h; exact h.symm
        case isFalse => exact absurd h (by simp)

theorem parseRef_roundtrip {raw : GoStr} {r : AssetRef}
    (h : parseRef raw = .ok r) : rawStr r = raw := by
  obtain ⟨pathPart, h2, _, h3, _, _, _⟩ := parseRef_ok_elim h
  obtain ⟨hraw, _⟩ := splitFirst_eq_some (splitN_two_eq h2)
  obtain ⟨hsf3, _⟩ := splitN_three_eq h3
  obtain ⟨hpp, _⟩ := splitFirst_eq_some hsf3
  rw [hraw, hpp]
  simp [rawStr]

theorem parseRef_rawStr (x : AssetRef)
    (hAtO : '@' ∉ x.org) (hAtR : '@' ∉ x.repo) (hAtP : '@' ∉ x.path)
    (hSlO : '/' ∉ x.org) (hSlR : '/' ∉ x.repo)
    (hO : x.org ≠ []) (hR : x.repo ≠ []) (hP : x.path ≠ []) (hRef : x.ref ≠ []) :
    parseRef (rawStr x) = .ok x := by
  have hfront : '@' ∉ x.org ++ ('/' :: (x.repo ++ ('/' :: x.path))) := by
    simp only [List.mem_append, List.mem_cons, not_or]
    exact ⟨hAtO, by decide, hAtR, by decide, hAtP⟩
  have hsplit : rawStr x =
      (x.org ++ ('/' :: (x.repo ++ ('/' :: x.path)))) ++ ('@' :: x.ref) := by
    simp [rawStr]
  have h1 : splitFirst '@' (rawStr x) =
      some (x.org ++ ('/' :: (x.repo ++ ('/' :: x.path))), x.ref) := by
    rw [hsplit]; exact splitFirst_append _ hfront
  have h2 : splitN '@' 2 (rawStr x) =
      [x.org ++ ('/' :: (x.repo ++ ('/' :: x.path))), x.ref] := by
    unfold splitN; rw [h1]; rfl
  have h3 : splitFirst '/' (x.org ++ ('/' :: (x.repo ++ ('/' :: x.path)))) =
      some (x.org, x.repo ++ ('/' :: x.path)) := splitFirst_append _ hSlO
  have h4 : splitFirst '/' (x.repo ++ ('/' :: x.path)) = some (x.repo, x.path) :=
    splitFirst_append _ hSlR
  have h5 : splitN '/' 3 (x.org ++ ('/' :: (x.repo ++ ('/' :: x.path)))) =
      [x.org, x.repo, x.path] := by
    unfold splitN; rw [h3]
    show x.org :: splitN '/' 2 (x.repo ++ ('/' :: x.path)) = _
    unfold splitN; rw [h4]
    rfl
  unfold parseRef
  rw [h2]
  simp only [if_neg hRef]
  rw [h5]
  simp [hO, hR, hP]

/-- C2: the reference grammar accepted by `parseRef`, amended: `raw` must
contain at least one "@" (the ref is everything after the first "@" and may
itself contain further "@"), the ref must be non-empty, and the part before
the first "@" must split into at least three "/"-delimited segments with
organization, repository and path all non-empty; any violation fails with
`InvalidReference` carrying the offending raw string, and the four listed
examples all fail. -/
theorem c2_parse_grammar :
    (∀ raw : GoStr, (∃ r, parseRef raw = .ok r) ↔ specParseOk raw) ∧
    (∀ (raw : GoStr) (e : ParseErr), parseRef raw = .error e →
      e = .invalidReference raw) ∧
    parseRef (str "no-at-sign") = .error (.invalidReference (str "no-at-sign")) ∧
    parseRef (str "org/repo/path@") = .error (.invalidReference (str "org/repo/path@")) ∧
    parseRef (str "org/repo@v1") = .error (.invalidReference (str "org/repo@v1")) ∧
    parseRef (str "org//path@v1") = .error (.invalidReference (str "org//path@v1")) := by
  refine ⟨fun raw => parseRef_ok_iff, fun raw e h => parseRef_error_shape h,
    ?_, ?_, ?_, ?_⟩ <;> decide

/-- Witness for C2: the grammar characterisation applied at the concrete
accepted reference "a/b/c@d". -/
theorem c2_parse_grammar_witness : specParseOk (str "a/b/c@d") :=
  (c2_parse_grammar.1 (str "a/b/c@d")).mp
    ⟨⟨str "a", str "b", str "c", str "d"⟩, by decide⟩

/-- Counterexample for C2: a raw string with two "@" characters is accepted
by `parseRef` (the ref becomes everything after the first "@"), so parsing
does not require exactly one "@". -/
theorem c2_counterexample :
    (str "org/repo/path@v1@2").count '@' = 2 ∧
    parseRef (str "org/repo/path@v1@2") =
      .ok ⟨str "org", str "repo", str "path", str "v1@2"⟩ := by
  decide

/-- C3 amended: serialization followed by parsing is the identity on every
accepted raw string (`parse(serialize(parse(raw))) == parse(raw)`, and in
fact `serialize(parse(raw)) == raw`); and `parse(serialize(x)) == x` holds
for every AssetReference whose organization and repository contain neither
"/" nor "@", whose path contains no "@", and whose four components are all
non-empty. -/
theorem c3_roundtrip :
    (∀ (raw : GoStr) (r : AssetRef), parseRef raw = .ok r →
      rawStr r = raw ∧ parseRef (rawStr r) = parseRef raw) ∧
    (∀ x : AssetRef, '@' ∉ x.org → '@' ∉ x.repo → '@' ∉ x.path →
      '/' ∉ x.org → '/' ∉ x.repo →
      x.org ≠ [] → x.repo ≠ [] → x.path ≠ [] → x.ref ≠ [] →
      parseRef (rawStr x) = .ok x) := by
  constructor
  · intro raw r h
    have hs := parseRef_roundtrip h
    exact ⟨hs, by rw [hs]⟩
  · intro x hAtO hAtR hAtP hSlO hSlR hO hR hP hRef
    exact parseRef_rawStr x hAtO hAtR hAtP hSlO hSlR hO hR hP hRef

/-- Witness for C3: the round-trip law applied at the concrete raw string
"acme/configs/prompts/deploy.prompt.md@abc123". -/
theorem c3_roundtrip_witness :
    rawStr ⟨str "acme", str "configs", str "prompts/deploy.prompt.md", str "abc123"⟩ =
      str "acme/configs/prompts/deploy.prompt.md@abc123" :=
  (c3_roundtrip.1 (str "acme/configs/prompts/deploy.prompt.md@abc123")
    ⟨str "acme", str "configs", str "prompts/deploy.prompt.md", str "abc123"⟩
    (by decide)).1

/-- Counterexample for C3: an AssetReference whose four components are all
non-empty but whose organization contains "/" does not survive the
serialize-then-parse round trip, refuting the claim's unconditional
`parse(serialize(x)) == x`. -/
theorem c3_counterexample :
    (AssetRef.org ⟨str "a/b", str "r", str "p", str "v"⟩ ≠ [] ∧
     AssetRef.repo ⟨str "a/b", str "r", str "p", str "v"⟩ ≠ [] ∧
     AssetRef.path ⟨str "a/b", str "r", str "p", str "v"⟩ ≠ [] ∧
     AssetRef.ref ⟨str "a/b", str "r", str "p", str "v"⟩ ≠ []) ∧
    parseRef (rawStr ⟨str "a/b", str "r", str "p", str "v"⟩) ≠
      .ok ⟨str "a/b", str "r", str "p", str "v"⟩ := by
  decide

/-!  AssetType rules (internal/config/types.go). -/

/-- Model of `AssetType.IsValid`: only the four enumerated type strings. -/
def isValidType (t : GoStr) : Bool :=
  decide (t = str "instructions") || decide (t = str "agents") ||
  decide (t = str "prompts") || decide (t = str "skills")

/-- Model of `AssetType.FileExtension`: per-type file suffix, empty for
skills (directories) and for unknown types. -/
def fileExtension (t : GoStr) : GoStr :=
  if t = str "instructions" then str ".instructions.md"
  else if t = str "agents" then str ".agent.md"
  else if t = str "prompts" then str ".prompt.md"
  else []

/-- Model of `AssetType.TargetDir`: the ".github/<type>" directory. -/
def targetDir (t : GoStr) : GoStr := goJoin2 (str ".github") t

/-- Model of `AssetType.TargetPath`: directory path for skills, suffixed
file path for the other types. -/
def targetPath (t name : GoStr) : GoStr :=
  if t = str "skills" then goJoin2 (targetDir t) name
  else goJoin2 (targetDir t) (name ++ fileExtension t)

/-- Model of `AssetType.IsDirectory`: true only for skills. -/
def isDirectoryType (t : GoStr) : Bool := decide (t = str "skills")

/-!  Lock state (internal/manifest/lock.go). -/

/-- Model of `manifest.LockEntry`: the resolved state of one managed
asset. -/
structure LockEntry where
  type : GoStr
  name : GoStr
  ref : GoStr
  resolvedSHA : GoStr
  targetPath : GoStr
  checksum : GoStr
  syncedAt : GoStr
deriving DecidableEq, Repr

/-- Model of the lock file's entries map, keyed by "type/name". -/
abbrev Lock := List (GoStr × LockEntry)

/-- Model of `manifest.entryKey`. -/
def entryKey (assetType name : GoStr) : GoStr := assetType ++ ('/' :: name)

/-- Zero value of `LockEntry`, returned by a missed Go map lookup. -/
def zeroLockEntry : LockEntry := ⟨[], [], [], [], [], [], []⟩

/-- Model of `LockFile.Set`: records or replaces a lock entry; the checksum
field is the digest of the content and `now` is the sync timestamp. -/
def lockSet (digest : GoStr → GoStr) (l : Lock)
    (assetType name ref resolvedSHA tPath content now : GoStr) : Lock :=
  mapSet l (entryKey assetType name)
    ⟨assetType, name, ref, resolvedSHA, tPath, digest content, now⟩

/-- Model of `LockFile.Get`: the entry and whether it was present; a missed
lookup yields the zero entry, as for a Go map. -/
def lockGet (l : Lock) (assetType name : GoStr) : LockEntry × Bool :=
  match mapGet l (entryKey assetType name) with
  | some e => (e, true)
  | none => (zeroLockEntry, false)

/-- Model of `LockFile.Remove`. -/
def lockRemove (l : Lock) (assetType name : GoStr) : Lock :=
  mapDelete l (entryKey assetType name)

/-!  Drift checker (internal/cli/sync.go, CheckAssets). -/

/-- Model of `manifest.Entry`: a flattened manifest row. -/
structure Entry where
  type : GoStr
  name : GoStr
  ref : GoStr
deriving DecidableEq, Repr

/-- Model of `cli.CheckStatus`. -/
inductive CheckStatus where
  | ok
  | neverSynced
  | fileMissing
  | notInLock
  | refMismatch
deriving DecidableEq, Repr

/-- Model of `cli.CheckResult`. -/
structure CheckResult where
  type : GoStr
  name : GoStr
  status : CheckStatus
  lockRef : GoStr
  manifRef : GoStr
deriving DecidableEq, Repr

/-- Model of `cli.CheckAssets`: one result per entry, classified by the
switch over file existence, lock presence and ref equality; reads state
only through its arguments. -/
def checkAssets (entries : List Entry) (lock : Lock)
    (fsExists : GoStr → Bool) : List CheckResult :=
  entries.map (fun entry =>
    let fileExists := fsExists (targetPath entry.type entry.name)
    let le := lockGet lock entry.type entry.name
    let status :=
      if !fileExists && !le.2 then CheckStatus.neverSynced
      else if !fileExists && le.2 then CheckStatus.fileMissing
      else if fileExists && !le.2 then CheckStatus.notInLock
      else if fileExists && le.2 && !(decide (le.1.ref = entry.ref)) then
        CheckStatus.refMismatch
      else CheckStatus.ok
    ⟨entry.type, entry.name, status, le.1.ref, entry.ref⟩)

/-- Decision table of spec §4.4, checked in order with first match
winning. -/
def specDriftStatus (fileExists locked refsMatch : Bool) : CheckStatus :=
  if fileExists = false ∧ locked = false then .neverSynced
  else if fileExists = false ∧ locked = true then .fileMissing
  else if fileExists = true ∧ locked = false then .notInLock
  else if fileExists = true ∧ locked = true ∧ refsMatch = false then .refMismatch
  else .ok

/-- Drift classification of a single declared entry, written from the
spec's words: compute file existence at the target path and the lock
lookup, then apply the decision table; "refs match" compares the lock
entry's stored reference string with the declared raw reference string. -/
def specCheckOne (lock : Lock) (fsExists : GoStr → Bool) (entry : Entry) : CheckResult :=
  let fileExists := fsExists (targetPath entry.type entry.name)
  let le := lockGet lock entry.type entry.name
  ⟨entry.type, entry.name,
    specDriftStatus fileExists le.2 (decide (le.1.ref = entry.ref)),
    le.1.ref, entry.ref⟩

/-- C1: the drift checker produces exactly one CheckResult per declared
entry, classified exactly by the spec's ordered decision table over file
existence, lock presence, and equality of the stored original reference
with the declared raw reference; it is a pure function of the declared
entries, the lock state and the supplied existence predicate. -/
theorem c1_drift_decision_table (entries : List Entry) (lock : Lock)
    (fsExists : GoStr → Bool) :
    checkAssets entries lock fsExists = entries.map (specCheckOne lock fsExists) ∧
    (checkAssets entries lock fsExists).length = entries.length := by
  have hmap : checkAssets entries lock fsExists =
      entries.map (specCheckOne lock fsExists) := by
    unfold checkAssets specCheckOne
    apply List.map_congr_left
    intro entry _
    cases hfe : fsExists (targetPath entry.type entry.name) <;>
      cases hlk : (lockGet lock entry.type entry.name).2 <;>
        cases hrm : decide ((lockGet lock entry.type entry.name).1.ref = entry.ref) <;>
          simp [specDriftStatus, hfe, hlk, hrm]
  exact ⟨hmap, by rw [hmap, List.length_map]⟩

/-!  Resolver (internal/resolver/resolver.go). -/

/-- Outcome of one HTTP GET of a raw-content URL: a transport error (no
response), or a response with a status code and a body whose read may
itself fail. -/
inductive GetResult where
  | transportError (msg : GoStr)
  | resp (code : Nat) (bodyRead : Except GoStr GoStr)
deriving DecidableEq, Repr

/-- One item of the GitHub Trees API response
(`resolver.GitHubTreeEntry`). -/
structure TreeEntry where
  path : GoStr
  type : GoStr
  sha : GoStr
deriving DecidableEq, Repr

/-- The remote host as seen by the resolver: the repository-info endpoint
(returning the default branch after JSON decoding), raw-content GET by
URL, and the recursive Trees API (returning the decoded entry list). -/
structure Host where
  repoInfo : GoStr → GoStr → Except GoStr GoStr
  get : GoStr → GetResult
  getTree : GoStr → GoStr → GoStr → Except GoStr (List TreeEntry)

/-- Decimal rendering of a status code for error messages. -/
def natToStr (n : Nat) : GoStr := (Nat.repr n).data

/-- Model of `Resolver.ResolveRef`: substitutes the "latest" sentinel with
the repository's default branch; identity for any other ref; an empty
decoded default branch is an error. -/
def resolveRef (h : Host) (r : AssetRef) : Except GoStr AssetRef :=
  if r.ref = str "latest" then
    match h.repoInfo r.org r.repo with
    | .error e => .error e
    | .ok b =>
      if b = [] then
        .error (str "could not determine default branch for " ++ r.org ++ ('/' :: r.repo))
      else .ok { r with ref := b }
  else .ok r

/-- Model of `resolver.RawFileURL`. -/
def rawFileURL (r : AssetRef) : GoStr :=
  str "https://raw.githubusercontent.com" ++
    ('/' :: (r.org ++ ('/' :: (r.repo ++ ('/' :: (r.ref ++ ('/' :: r.path)))))))

/-- Body text used in an HTTP error message (a failed body read leaves it
empty, as Go's ignored ReadAll error does). -/
def errBody : Except GoStr GoStr → GoStr
  | .ok b => b
  | .error _ => []

/-- The fetch loop of `Resolver.DownloadFile` over the candidate paths:
a transport error or a 404 records the failure and moves to the next
candidate; any other non-200 status is terminal; a 200 response returns
its body (a failed body read is terminal). -/
def tryPaths (h : Host) (r : AssetRef) : List GoStr → Option GoStr → Except GoStr GoStr
  | [], lastErr => .error (lastErr.getD [])
  | p :: rest, _ =>
    let url := rawFileURL { r with path := p }
    match h.get url with
    | .transportError msg =>
      tryPaths h r rest (some (str "fetching " ++ url ++ (str ": " ++ msg)))
    | .resp code bodyRead =>
      if code = 404 then
        tryPaths h r rest (some (str "fetching " ++ url ++ str ": HTTP 404"))
      else if code ≠ 200 then
        .error (str "fetching " ++ url ++ (str ": HTTP " ++ natToStr code) ++
          (str " -- " ++ errBody bodyRead))
      else
        match bodyRead with
        | .error _ => .error (str "reading response from " ++ url)
        | .ok data => .ok data

/-- Model of `Resolver.DownloadFile`: resolve "latest", then try the exact
path, adding a single ".md"-suffixed candidate when the path does not
already end in ".md". -/
def downloadFile (h : Host) (r0 : AssetRef) : Except GoStr GoStr :=
  match resolveRef h r0 with
  | .error e => .error e
  | .ok r =>
    let pathsToTry :=
      if hasSuffix r.path (str ".md") then [r.path]
      else [r.path, r.path ++ str ".md"]
    tryPaths h r pathsToTry none

/-- The filter loop of `Resolver.ListDirectory`: keep entries that are
blobs and whose path is the requested path itself or strictly extends the
requested path followed by "/". -/
def dirFilter (rpath : GoStr) (tree : List TreeEntry) : List TreeEntry :=
  tree.filter (fun e =>
    decide (e.type = str "blob") &&
    (decide (e.path = rpath) ||
     (decide ((rpath ++ ['/']).length < e.path.length) &&
      decide (e.path.take (rpath ++ ['/']).length = rpath ++ ['/']))))

/-- Model of `Resolver.ListDirectory`: resolve "latest", fetch the
recursive tree, keep only blob entries at the requested path or strictly
under it, and fail when nothing qualifies. -/
def listDirectory (h : Host) (r0 : AssetRef) : Except GoStr (List TreeEntry) :=
  match resolveRef h r0 with
  | .error e => .error e
  | .ok r =>
    match h.getTree r.org r.repo r.ref with
    | .error e => .error e
    | .ok tree =>
      if dirFilter r.path tree = [] then
        .error (str "no files found under " ++ r.path)
      else .ok (dirFilter r.path tree)

theorem resolveRef_fields {h : Host} {r0 r : AssetRef}
    (hres : resolveRef h r0 = .ok r) :
    r.org = r0.org ∧ r.repo = r0.repo ∧ r.path = r0.path := by
  unfold resolveRef at hres
  split at hres
  · split at hres
    · exact absurd hres (by simp)
    · split at hres
      · exact absurd hres (by simp)
      · simp only [Except.ok.injEq] at hres
        subst hres
        exact ⟨rfl, rfl, rfl⟩
  · simp only [Except.ok.injEq] at hres
    subst hres
    exact ⟨rfl, rfl, rfl⟩

/-- C4: single-file download tries the exact path first; a not-found
response on a path not already ending in ".md" causes exactly one retry
with ".md" appended whose successful content is returned; any non-success
status other than 404 on the first try is terminal with an error built
from that response alone (no retry); 404 on every tried variant is
terminal. -/
theorem c4_download_fallback (h : Host) (r : AssetRef)
    (hl : r.ref ≠ str "latest") :
    (∀ data, h.get (rawFileURL r) = .resp 200 (.ok data) →
      downloadFile h r = .ok data) ∧
    (∀ b404 data, hasSuffix r.path (str ".md") = false →
      h.get (rawFileURL r) = .resp 404 b404 →
      h.get (rawFileURL { r with path := r.path ++ str ".md" }) = .resp 200 (.ok data) →
      downloadFile h r = .ok data) ∧
    (∀ code body, code ≠ 200 → code ≠ 404 →
      h.get (rawFileURL r) = .resp code body →
      downloadFile h r = .error (str "fetching " ++ rawFileURL r ++
        (str ": HTTP " ++ natToStr code) ++ (str " -- " ++ errBody body))) ∧
    (∀ b404 b404', hasSuffix r.path (str ".md") = false →
      h.get (rawFileURL r) = .resp 404 b404 →
      h.get (rawFileURL { r with path := r.path ++ str ".md" }) = .resp 404 b404' →
      downloadFile h r = .error (str "fetching " ++
        rawFileURL { r with path := r.path ++ str ".md" } ++ str ": HTTP 404")) ∧
    (∀ b404, hasSuffix r.path (str ".md") = true →
      h.get (rawFileURL r) = .resp 404 b404 →
      downloadFile h r = .error (str "fetching " ++ rawFileURL r ++ str ": HTTP 404")) := by
  obtain ⟨o, rp, pa, rf⟩ := r
  have hres : resolveRef h ⟨o, rp, pa, rf⟩ = .ok ⟨o, rp, pa, rf⟩ := by
    simp only [resolveRef]
    rw [if_neg (by exact hl)]
  refine ⟨?_, ?_, ?_, ?_, ?_⟩
  · intro data hget
    simp only [downloadFile, hres]
    by_cases hmd : hasSuffix pa (str ".md")
    · simp only [hmd, if_true, tryPaths, hget]
      rfl
    · simp only [hmd, if_false, Bool.false_eq_true, tryPaths, hget]
      rfl
  · intro b404 data hmd hget1 hget2
    simp only [downloadFile, hres]
    simp only [hmd, Bool.false_eq_true, if_false, tryPaths, hget1, hget2]
    rfl
  · intro code body h200 h404 hget
    simp only [downloadFile, hres]
    by_cases hmd : hasSuffix pa (str ".md") <;>
      simp [hmd, tryPaths, hget, h200, h404]
  · intro b404 b404' hmd hget1 hget2
    simp only [downloadFile, hres]
    simp only [hmd, Bool.false_eq_true, if_false, tryPaths, hget1, hget2]
    rfl
  · intro b404 hmd hget
    simp only [downloadFile, hres]
    simp only [hmd, if_true, tryPaths, hget]
    rfl

/-- Concrete host for exercising the download fallback: the exact path
returns 404 and the ".md"-suffixed variant returns the content. -/
def c4Host : Host where
  repoInfo := fun _ _ => .error (str "unused")
  get := fun url =>
    if url = rawFileURL ⟨str "o", str "r", str "p", str "v"⟩ then .resp 404 (.ok [])
    else if url = rawFileURL ⟨str "o", str "r", str "p.md", str "v"⟩ then
      .resp 200 (.ok (str "C"))
    else .transportError (str "unreachable")
  getTree := fun _ _ _ => .error (str "unused")

/-- Witness for C4: on the concrete host the 404-then-retry scenario
returns the retried content. -/
theorem c4_download_fallback_witness :
    downloadFile c4Host ⟨str "o", str "r", str "p", str "v"⟩ = .ok (str "C") :=
  (c4_download_fallback c4Host ⟨str "o", str "r", str "p", str "v"⟩
    (by decide)).2.1 (.ok []) (str "C") (by decide) (by decide) (by decide)

/-- C10: a successful directory listing is non-empty and contains only
blob entries whose path equals the requested reference's path or begins
with that path followed by "/"; when the filter over the fetched tree
retains nothing, the call fails with an error instead of returning an
empty list. -/
theorem c10_list_directory_filter (h : Host) (r0 : AssetRef) :
    (∀ l, listDirectory h r0 = .ok l →
      l ≠ [] ∧
      ∀ e ∈ l, e.type = str "blob" ∧
        (e.path = r0.path ∨ (r0.path ++ ['/']).isPrefixOf e.path = true)) ∧
    (∀ r tree, resolveRef h r0 = .ok r →
      h.getTree r.org r.repo r.ref = .ok tree →
      dirFilter r.path tree = [] →
      listDirectory h r0 = .error (str "no files found under " ++ r.path)) := by
  constructor
  · intro l hok
    unfold listDirectory at hok
    rcases hres : resolveRef h r0 with e | r <;> rw [hres] at hok
    · simp at hok
    dsimp only [] at hok
    rcases hgt : h.getTree r.org r.repo r.ref with e2 | tree <;> rw [hgt] at hok
    · simp at hok
    dsimp only [] at hok
    split at hok
    case isTrue => simp at hok
    case isFalse hne =>
      simp only [Except.ok.injEq] at hok
      subst hok
      obtain ⟨horg, hrepo, hpath⟩ := resolveRef_fields hres
      refine ⟨hne, ?_⟩
      intro e he
      obtain ⟨_, hpred⟩ := List.mem_filter.mp he
      simp only [Bool.and_eq_true, Bool.or_eq_true, decide_eq_true_eq] at hpred
      obtain ⟨hblob, hloc⟩ := hpred
      refine ⟨hblob, ?_⟩
      rcases hloc with heq | ⟨_, htake⟩
      · left; rw [← hpath]; exact heq
      · right
        rw [← hpath]
        have hpre : (r.path ++ ['/']) <+: e.path := by
          rw [List.prefix_iff_eq_take]
          exact htake.symm
        exact List.isPrefixOf_iff_prefix.mpr hpre
  · intro r tree hres hgt hfil
    unfold listDirectory
    rw [hres]
    simp only [hgt, hfil]
    simp

/-- Concrete host for exercising the directory listing: one blob under the
requested path, one tree entry, and one blob outside the path. -/
def c10Host : Host where
  repoInfo := fun _ _ => .error (str "unused")
  get := fun _ => .transportError (str "unused")
  getTree := fun _ _ _ => .ok
    [⟨str "skill/a.md", str "blob", str "s1"⟩,
     ⟨str "skill", str "tree", str "s2"⟩,
     ⟨str "other/b.md", str "blob", str "s3"⟩]

/-- Witness for C10: on the concrete host the listing keeps exactly the
blob under the requested path, and every kept entry is a blob at or under
that path. -/
theorem c10_list_directory_filter_witness :
    ([⟨str "skill/a.md", str "blob", str "s1"⟩] : List TreeEntry) ≠ [] ∧
    ∀ e ∈ ([⟨str "skill/a.md", str "blob", str "s1"⟩] : List TreeEntry),
      e.type = str "blob" ∧
      (e.path = str "skill" ∨ (str "skill" ++ ['/']).isPrefixOf e.path = true) :=
  (c10_list_directory_filter c10Host ⟨str "o", str "r", str "skill", str "v"⟩).1
    [⟨str "skill/a.md", str "blob", str "s1"⟩] (by decide)

/-!  Order properties of the byte-wise string comparison. -/

theorem strLe_total (a b : GoStr) : strLe a b = true ∨ strLe b a = true := by
  induction a generalizing b with
  | nil => left; rfl
  | cons c cs ih =>
    cases b with
    | nil => right; rfl
    | cons d ds =>
      rcases lt_trichotomy c d with h | h | h
      · left; simp [strLe, h]
      · subst h
        rcases ih ds with h' | h'
        · left; simp [strLe, lt_irrefl, h']
        · right; simp [strLe, lt_irrefl, h']
      · right; simp [strLe, h]

theorem strLe_trans (a b c : GoStr) (hab : strLe a b = true)
    (hbc : strLe b c = true) : strLe a c = true := by
  induction a generalizing b c with
  | nil => rfl
  | cons x xs ih =>
    cases b with
    | nil => simp [strLe] at hab
    | cons y ys =>
      cases c with
      | nil => simp [strLe] at hbc
      | cons z zs =>
        rcases lt_trichotomy x y with hxy | hxy | hxy
        · rcases lt_trichotomy y z with hyz | hyz | hyz
          · simp [strLe, lt_trans hxy hyz]
          · subst hyz; simp [strLe, hxy]
          · simp [strLe, asymm hyz, hyz] at hbc
        · subst hxy
          rcases lt_trichotomy x z with hxz | hxz | hxz
          · simp [strLe, hxz]
          · subst hxz
            simp only [strLe, lt_irrefl, if_false] at hab hbc ⊢
            exact ih ys zs hab hbc
          · simp [strLe, asymm hxz, hxz] at hbc
        · simp [strLe, asymm hxy, hxy] at hab

theorem strLe_antisymm (a b : GoStr) (hab : strLe a b = true)
    (hba : strLe b a = true) : a = b := by
  induction a generalizing b with
  | nil =>
    cases b with
    | nil => rfl
    | cons y ys => simp [strLe] at hba
  | cons x xs ih =>
    cases b with
    | nil => simp [strLe] at hab
    | cons y ys =>
      rcases lt_trichotomy x y with h | h | h
      · simp [strLe, asymm h, h] at hba
      · subst h
        simp only [strLe, lt_irrefl, if_false] at hab hba
        rw [ih ys hab hba]
      · simp [strLe, asymm h, h] at hab

instance : IsTotal GoStr strLeProp := ⟨strLe_total⟩

instance : IsTrans GoStr strLeProp := ⟨strLe_trans⟩

instance : IsAntisymm GoStr strLeProp := ⟨strLe_antisymm⟩

theorem sortStrings_sorted (l : List GoStr) :
    List.Sorted strLeProp (sortStrings l) :=
  List.sorted_insertionSort strLeProp l

theorem sortStrings_perm (l : List GoStr) : (sortStrings l).Perm l :=
  List.perm_insertionSort strLeProp l

theorem sortStrings_eq_of_perm {l₁ l₂ : List GoStr} (h : l₁.Perm l₂) :
    sortStrings l₁ = sortStrings l₂ :=
  List.eq_of_perm_of_sorted
    ((sortStrings_perm l₁).trans (h.trans (sortStrings_perm l₂).symm))
    (sortStrings_sorted l₁) (sortStrings_sorted l₂)

/-!  Go-map lookup lemmas. -/

theorem mapGet_eq_of_mem_nodup {α : Type} {l : List (GoStr × α)} {k : GoStr} {v : α}
    (hmem : (k, v) ∈ l) (hnd : (l.map Prod.fst).Nodup) : mapGet l k = some v := by
  induction l with
  | nil => simp at hmem
  | cons kv rest ih =>
    obtain ⟨k', v'⟩ := kv
    simp only [List.map_cons, List.nodup_cons] at hnd
    obtain ⟨hnotin, hnd'⟩ := hnd
    rcases List.mem_cons.mp hmem with heq | hmem'
    · simp only [Prod.mk.injEq] at heq
      obtain ⟨rfl, rfl⟩ := heq
      simp only [mapGet]
      rw [List.find?_cons_of_pos _ (by simp)]
      rfl
    · have hk : ¬ k' = k := by
        intro h
        subst h
        exact hnotin (List.mem_map_of_mem Prod.fst hmem')
      have hrest := ih hmem' hnd'
      simp only [mapGet] at hrest ⊢
      rw [List.find?_cons_of_neg _ (by simp [hk])]
      exact hrest

theorem mapGet_perm {α : Type} {l₁ l₂ : List (GoStr × α)} (hp : l₁.Perm l₂)
    (hnd : (l₁.map Prod.fst).Nodup) (k : GoStr) (hk : k ∈ l₁.map Prod.fst) :
    mapGet l₁ k = mapGet l₂ k := by
  obtain ⟨⟨k', v⟩, hmem, hfst⟩ := List.mem_map.mp hk
  cases hfst
  have hnd₂ : (l₂.map Prod.fst).Nodup := ((hp.map Prod.fst).nodup_iff).mp hnd
  rw [mapGet_eq_of_mem_nodup hmem hnd,
    mapGet_eq_of_mem_nodup (hp.mem_iff.mp hmem) hnd₂]

theorem foldl_append_congr (ks : List GoStr) (f g : GoStr → GoStr) (a : GoStr)
    (h : ∀ k ∈ ks, f k = g k) :
    ks.foldl (fun acc k => acc ++ f k) a = ks.foldl (fun acc k => acc ++ g k) a := by
  induction ks generalizing a with
  | nil => rfl
  | cons k ks ih =>
    simp only [List.foldl_cons]
    rw [h k (by simp)]
    exact ih _ (fun k' hk' => h k' (by simp [hk']))

/-!  Directory checksum (internal/injector/injector.go,
computeDirectoryChecksum; the digest applied to it is `checksum` of
internal/manifest/lock.go). -/

/-- Model of `injector.computeDirectoryChecksum`: collect the keys of the
content map, sort them, and concatenate the contents in sorted-key
order. -/
def computeDirectoryChecksum (contents : List (GoStr × GoStr)) : GoStr :=
  (sortStrings (contents.map (fun kv => kv.1))).foldl
    (fun acc k => acc ++ ((mapGet contents k).getD [])) []

/-- C5: the aggregate directory content is the concatenation of the files'
contents ordered by lexicographically sorted relative path, so any digest
of it is invariant under reordering of the input map, and the concrete map
b.md ↦ B, a.md ↦ A yields exactly the bytes "AB". -/
theorem c5_directory_checksum (digest : GoStr → GoStr)
    (l₁ l₂ : List (GoStr × GoStr)) (hperm : l₁.Perm l₂)
    (hnd : (l₁.map Prod.fst).Nodup) :
    computeDirectoryChecksum l₁ = computeDirectoryChecksum l₂ ∧
    digest (computeDirectoryChecksum l₁) = digest (computeDirectoryChecksum l₂) ∧
    computeDirectoryChecksum [(str "b.md", str "B"), (str "a.md", str "A")] = str "AB" := by
  have hkeys : (l₁.map Prod.fst).Perm (l₂.map Prod.fst) := hperm.map _
  have hcdc : computeDirectoryChecksum l₁ = computeDirectoryChecksum l₂ := by
    unfold computeDirectoryChecksum
    have hmapfst : ∀ l : List (GoStr × GoStr),
        l.map (fun kv => kv.1) = l.map Prod.fst := fun _ => rfl
    rw [hmapfst, hmapfst, sortStrings_eq_of_perm hkeys]
    apply foldl_append_congr
    intro k hk
    have hk₂ : k ∈ l₂.map Prod.fst := (sortStrings_perm _).mem_iff.mp hk
    have hk₁ : k ∈ l₁.map Prod.fst := hkeys.symm.mem_iff.mp hk₂
    rw [mapGet_perm hperm hnd k hk₁]
  exact ⟨hcdc, by rw [hcdc], by decide⟩

/-- Witness for C5: the two orderings of the concrete two-file map produce
identical aggregate bytes. -/
theorem c5_directory_checksum_witness :
    computeDirectoryChecksum [(str "b.md", str "B"), (str "a.md", str "A")] =
      computeDirectoryChecksum [(str "a.md", str "A"), (str "b.md", str "B")] :=
  (c5_directory_checksum (fun s => s)
    [(str "b.md", str "B"), (str "a.md", str "A")]
    [(str "a.md", str "A"), (str "b.md", str "B")]
    (List.Perm.swap _ _ _) (by decide)).1

/-!  Reconciliation engine (internal/injector/injector.go). -/

/-- The filesystem as a partial map from paths to file contents. -/
abbrev FsState := GoStr → Option GoStr

/-- Writing a file: the path now maps to the new content. -/
def fsWrite (fs : FsState) (p c : GoStr) : FsState :=
  fun q => if q = p then some c else fs q

/-- Removing a single file. -/
def fsErase (fs : FsState) (p : GoStr) : FsState :=
  fun q => if q = p then none else fs q

/-- Error outcomes of the filesystem primitives, as oracles over the path
being operated on (the OS may fail any of these calls). -/
structure FwErr where
  mkdirFail : GoStr → Bool
  writeFail : GoStr → Bool
  removeFail : GoStr → Bool
  removeAllFail : GoStr → Bool
  saveManifestFail : Bool
  saveLockFail : Bool

/-- The source repository collaborator consumed by the injector
(`resolver.SourceRepository`). -/
structure Source where
  downloadFile : AssetRef → Except GoStr GoStr
  listDirectory : AssetRef → Except GoStr (List TreeEntry)
  resolveSHA : AssetRef → Except GoStr GoStr

/-- Model of `Injector.injectFile`: ensure the parent directory, resolve
the commit SHA, download, remove a pre-existing file at the target, write
the new content, and only then replace the lock entry. -/
def injectFile (src : Source) (fw : FwErr) (digest : GoStr → GoStr) (now : GoStr)
    (fs : FsState) (lock : Lock) (assetType name rawRef : GoStr) (r : AssetRef)
    (absTarget : GoStr) : Except GoStr Unit × FsState × Lock :=
  if fw.mkdirFail (goDir absTarget) then
    (.error (str "creating directory"), fs, lock)
  else
    match src.resolveSHA r with
    | .error e => (.error (str "resolving commit SHA: " ++ e), fs, lock)
    | .ok sha =>
      match src.downloadFile r with
      | .error e => (.error e, fs, lock)
      | .ok content =>
        match fs absTarget with
        | some _ =>
          if fw.removeFail absTarget then
            (.error (str "removing existing file"), fs, lock)
          else
            if fw.writeFail absTarget then
              (.error (str "writing file " ++ absTarget), fsErase fs absTarget, lock)
            else
              (.ok (), fsWrite (fsErase fs absTarget) absTarget content,
                lockSet digest lock assetType name rawRef sha
                  (targetPath assetType name) content now)
        | none =>
          if fw.writeFail absTarget then
            (.error (str "writing file " ++ absTarget), fs, lock)
          else
            (.ok (), fsWrite fs absTarget content,
              lockSet digest lock assetType name rawRef sha
                (targetPath assetType name) content now)

/-- Relative-path derivation of `Injector.injectDirectory`: strip the
directory prefix; when the entry does not live under the prefix, fall back
to its base name. -/
def relPathOf (rpath epath : GoStr) : GoStr :=
  let relPath0 := trimPrefix epath (rpath ++ str "/")
  if relPath0 = epath then goBase epath else relPath0

/-- The per-entry loop of `Injector.injectDirectory`: for each listed
entry, ensure its subdirectory, download it through a reference reusing
the directory's organisation/repository/ref with the entry's own path,
write it, and record its content; the first failure aborts, keeping the
filesystem state reached so far. -/
def dirLoop (src : Source) (fw : FwErr) (r : AssetRef) (absTargetDir : GoStr) :
    List TreeEntry → FsState → List (GoStr × GoStr) →
      Option GoStr × FsState × List (GoStr × GoStr)
  | [], fs, acc => (none, fs, acc)
  | e :: rest, fs, acc =>
    if fw.mkdirFail (goDir (goJoin2 absTargetDir (relPathOf r.path e.path))) then
      (some (str "creating directory for " ++ relPathOf r.path e.path), fs, acc)
    else
      match src.downloadFile ⟨r.org, r.repo, e.path, r.ref⟩ with
      | .error err => (some (str "downloading " ++ e.path ++ (str ": " ++ err)), fs, acc)
      | .ok content =>
        if fw.writeFail (goJoin2 absTargetDir (relPathOf r.path e.path)) then
          (some (str "writing " ++ goJoin2 absTargetDir (relPathOf r.path e.path)), fs, acc)
        else
          dirLoop src fw r absTargetDir rest
            (fsWrite fs (goJoin2 absTargetDir (relPathOf r.path e.path)) content)
            (mapSet acc (relPathOf r.path e.path) content)

/-- Model of `Injector.injectDirectory`: list the remote directory, ensure
the base directory, run the per-entry loop, then resolve the commit SHA
(non-fatally, falling back to "unknown") and replace the lock entry with
the aggregate checksum. -/
def injectDirectory (src : Source) (fw : FwErr) (digest : GoStr → GoStr) (now : GoStr)
    (fs : FsState) (lock : Lock) (r : AssetRef) (absTargetDir rootDir : GoStr) :
    Except GoStr Unit × FsState × Lock :=
  match src.listDirectory r with
  | .error e => (.error e, fs, lock)
  | .ok entries =>
    if fw.mkdirFail absTargetDir then
      (.error (str "creating skill directory"), fs, lock)
    else
      match dirLoop src fw r absTargetDir entries fs [] with
      | (some err, fs', _) => (.error err, fs', lock)
      | (none, fs', acc) =>
        (.ok (), fs',
          lockSet digest lock (str "skills") (goBase absTargetDir) (rawStr r)
            (match src.resolveSHA r with
              | .error _ => str "unknown"
              | .ok s => s)
            (trimPrefix absTargetDir (rootDir ++ str "/"))
            (computeDirectoryChecksum acc) now)

/-- Model of `Injector.Inject`: parse the raw reference (a parse failure is
terminal with no side effect), compute the target path, and dispatch on
the asset shape (the returned target path itself is not modelled). -/
def inject (src : Source) (fw : FwErr) (digest : GoStr → GoStr) (now : GoStr)
    (fs : FsState) (lock : Lock) (assetType name rawRef rootDir : GoStr) :
    Except GoStr Unit × FsState × Lock :=
  match parseRef rawRef with
  | .error (.invalidReference raw) =>
    (.error (str "invalid reference " ++ raw), fs, lock)
  | .ok r =>
    if isDirectoryType assetType then
      injectDirectory src fw digest now fs lock r
        (goJoin2 rootDir (targetPath assetType name)) rootDir
    else
      injectFile src fw digest now fs lock assetType name rawRef r
        (goJoin2 rootDir (targetPath assetType name))

theorem injectFile_lock_cases (src : Source) (fw : FwErr) (digest : GoStr → GoStr)
    (now : GoStr) (fs : FsState) (lock : Lock) (assetType name rawRef : GoStr)
    (r : AssetRef) (absTarget : GoStr) :
    (injectFile src fw digest now fs lock assetType name rawRef r absTarget).1 = .ok () ∨
    (injectFile src fw digest now fs lock assetType name rawRef r absTarget).2.2 = lock := by
  unfold injectFile
  split
  · exact Or.inr rfl
  · split
    · exact Or.inr rfl
    · split
      · exact Or.inr rfl
      · split
        · split
          · exact Or.inr rfl
          · split
            · exact Or.inr rfl
            · exact Or.inl rfl
        · split
          · exact Or.inr rfl
          · exact Or.inl rfl

theorem injectDirectory_lock_cases (src : Source) (fw : FwErr) (digest : GoStr → GoStr)
    (now : GoStr) (fs : FsState) (lock : Lock) (r : AssetRef)
    (absTargetDir rootDir : GoStr) :
    (injectDirectory src fw digest now fs lock r absTargetDir rootDir).1 = .ok () ∨
    (injectDirectory src fw digest now fs lock r absTargetDir rootDir).2.2 = lock := by
  unfold injectDirectory
  split
  · exact Or.inr rfl
  · split
    · exact Or.inr rfl
    · split
      · exact Or.inr rfl
      · exact Or.inl rfl

theorem dirLoop_append (src : Source) (fw : FwErr) (r : AssetRef)
    (absTargetDir : GoStr) (l₁ l₂ : List TreeEntry) (fs : FsState)
    (acc : List (GoStr × GoStr)) :
    dirLoop src fw r absTargetDir (l₁ ++ l₂) fs acc =
      match dirLoop src fw r absTargetDir l₁ fs acc with
      | (none, fs₁, acc₁) => dirLoop src fw r absTargetDir l₂ fs₁ acc₁
      | (some err, fs₁, acc₁) => (some err, fs₁, acc₁) := by
  induction l₁ generalizing fs acc with
  | nil => rfl
  | cons e rest ih =>
    simp only [List.cons_append, dirLoop]
    split
    · rfl
    · split
      · rfl
      · split
        · rfl
        · exact ih _ _

/-- C6: whenever injection fails — at any step of a single-file asset, or
for a directory asset on listing failure or any single file's fetch or
write failure — the lock state is unchanged; a single-file success writes
the downloaded content before replacing the lock entry; and a directory
batch that fails midway aborts with exactly the filesystem state reached
by the successfully processed prefix while the lock is untouched. -/
theorem c6_failure_atomicity :
    (∀ (src : Source) (fw : FwErr) (digest : GoStr → GoStr) (now : GoStr)
       (fs : FsState) (lock : Lock) (assetType name rawRef rootDir e : GoStr),
      (inject src fw digest now fs lock assetType name rawRef rootDir).1 = .error e →
      (inject src fw digest now fs lock assetType name rawRef rootDir).2.2 = lock) ∧
    (∀ (src : Source) (fw : FwErr) (digest : GoStr → GoStr) (now : GoStr)
       (fs : FsState) (lock : Lock) (assetType name rawRef : GoStr) (r : AssetRef)
       (absTarget : GoStr) (res : Except GoStr Unit) (fs' : FsState) (lock' : Lock),
      injectFile src fw digest now fs lock assetType name rawRef r absTarget =
        (res, fs', lock') →
      res = .ok () →
      ∃ sha content, src.resolveSHA r = .ok sha ∧ src.downloadFile r = .ok content ∧
        fs' absTarget = some content ∧
        lock' = lockSet digest lock assetType name rawRef sha
          (targetPath assetType name) content now) ∧
    (∀ (src : Source) (fw : FwErr) (digest : GoStr → GoStr) (now : GoStr)
       (fs : FsState) (lock : Lock) (r : AssetRef) (absDir rootDir : GoStr)
       (l₁ rest : List TreeEntry) (err : GoStr) (fs₁ fs₂ : FsState)
       (acc₁ acc₂ : List (GoStr × GoStr)),
      src.listDirectory r = .ok (l₁ ++ rest) →
      fw.mkdirFail absDir = false →
      dirLoop src fw r absDir l₁ fs [] = (none, fs₁, acc₁) →
      dirLoop src fw r absDir rest fs₁ acc₁ = (some err, fs₂, acc₂) →
      injectDirectory src fw digest now fs lock r absDir rootDir =
        (.error err, fs₂, lock)) := by
  refine ⟨?_, ?_, ?_⟩
  · intro src fw digest now fs lock assetType name rawRef rootDir e herr
    unfold inject at herr ⊢
    rcases hp : parseRef rawRef with pe | r
    · cases pe
      rfl
    · rw [hp] at herr
      dsimp only at herr ⊢
      cases hdir : isDirectoryType assetType
      · simp only [hdir, Bool.false_eq_true, if_false] at herr ⊢
        rcases injectFile_lock_cases src fw digest now fs lock assetType name rawRef r
            (goJoin2 rootDir (targetPath assetType name)) with hok | hlock
        · rw [hok] at herr; exact absurd herr (by simp)
        · exact hlock
      · simp only [hdir, if_true] at herr ⊢
        rcases injectDirectory_lock_cases src fw digest now fs lock r
            (goJoin2 rootDir (targetPath assetType name)) rootDir with hok | hlock
        · rw [hok] at herr; exact absurd herr (by simp)
        · exact hlock
  · intro src fw digest now fs lock assetType name rawRef r absTarget res fs' lock'
      heq hok
    subst hok
    unfold injectFile at heq
    split at heq
    · simp at heq
    · split at heq
      · simp at heq
      case h_2 sha hsha =>
        split at heq
        · simp at heq
        case h_2 content hdl =>
          split at heq
          case h_1 prev hfs =>
            split at heq
            · simp at heq
            · split at heq
              · simp at heq
              · simp only [Prod.mk.injEq] at heq
                obtain ⟨-, hfs', hlock'⟩ := heq
                refine ⟨sha, content, hsha, hdl, ?_, hlock'.symm⟩
                rw [← hfs']
                simp [fsWrite]
          case h_2 hfs =>
            split at heq
            · simp at heq
            · simp only [Prod.mk.injEq] at heq
              obtain ⟨-, hfs', hlock'⟩ := heq
              refine ⟨sha, content, hsha, hdl, ?_, hlock'.symm⟩
              rw [← hfs']
              simp [fsWrite]
  · intro src fw digest now fs lock r absDir rootDir l₁ rest err fs₁ fs₂ acc₁ acc₂
      hlist hmk hloop1 hloop2
    unfold injectDirectory
    rw [hlist]
    dsimp only
    simp only [hmk, Bool.false_eq_true, if_false]
    rw [dirLoop_append, hloop1]
    dsimp only
    rw [hloop2]

/-- C7: for a directory asset whose every file downloads and writes
successfully, a failing commit-SHA resolution is non-fatal: the operation
succeeds and replaces the lock entry with the "unknown" revision
sentinel. -/
theorem c7_unknown_revision (src : Source) (fw : FwErr) (digest : GoStr → GoStr)
    (now : GoStr) (fs : FsState) (lock : Lock) (r : AssetRef)
    (absDir rootDir : GoStr) (entries : List TreeEntry) (fs' : FsState)
    (acc : List (GoStr × GoStr)) (e : GoStr)
    (hlist : src.listDirectory r = .ok entries)
    (hmk : fw.mkdirFail absDir = false)
    (hloop : dirLoop src fw r absDir entries fs [] = (none, fs', acc))
    (hsha : src.resolveSHA r = .error e) :
    injectDirectory src fw digest now fs lock r absDir rootDir =
      (.ok (), fs',
        lockSet digest lock (str "skills") (goBase absDir) (rawStr r)
          (str "unknown") (trimPrefix absDir (rootDir ++ str "/"))
          (computeDirectoryChecksum acc) now) := by
  unfold injectDirectory
  rw [hlist]
  dsimp only
  simp only [hmk, Bool.false_eq_true, if_false]
  rw [hloop]
  dsimp only
  rw [hsha]

/-- Filesystem error oracles with every operation succeeding. -/
def noFwErr : FwErr :=
  ⟨fun _ => false, fun _ => false, fun _ => false, fun _ => false, false, false⟩

/-- Concrete source whose directory has two files, the second of which
fails to download. -/
def c6Src : Source where
  downloadFile := fun fr =>
    if fr.path = str "skill/a.md" then .ok (str "A") else .error (str "boom")
  listDirectory := fun _ =>
    .ok [⟨str "skill/a.md", str "blob", str "s1"⟩,
         ⟨str "skill/b.md", str "blob", str "s2"⟩]
  resolveSHA := fun _ => .ok (str "sha")

/-- Witness for C6: the concrete two-file directory injection aborts on
the second file's download failure, keeps the first file on disk, and
leaves the (empty) lock untouched. -/
theorem c6_failure_atomicity_witness :
    injectDirectory c6Src noFwErr (fun s => s) (str "T") (fun _ => none) []
      ⟨str "o", str "r", str "skill", str "v"⟩ (str ".github/skills/s") (str ".") =
      (.error (str "downloading " ++ str "skill/b.md" ++ (str ": " ++ str "boom")),
        fsWrite (fun _ => none) (str ".github/skills/s/a.md") (str "A"), []) :=
  c6_failure_atomicity.2.2 c6Src noFwErr (fun s => s) (str "T") (fun _ => none) []
    ⟨str "o", str "r", str "skill", str "v"⟩ (str ".github/skills/s") (str ".")
    [⟨str "skill/a.md", str "blob", str "s1"⟩] [⟨str "skill/b.md", str "blob", str "s2"⟩]
    (str "downloading " ++ str "skill/b.md" ++ (str ": " ++ str "boom"))
    (fsWrite (fun _ => none) (str ".github/skills/s/a.md") (str "A"))
    (fsWrite (fun _ => none) (str ".github/skills/s/a.md") (str "A"))
    [(str "a.md", str "A")] [(str "a.md", str "A")]
    rfl rfl rfl rfl

/-- Concrete source whose single directory file downloads but whose
commit-SHA resolution fails. -/
def c7Src : Source where
  downloadFile := fun _ => .ok (str "A")
  listDirectory := fun _ => .ok [⟨str "skill/a.md", str "blob", str "s1"⟩]
  resolveSHA := fun _ => .error (str "nope")

/-- Witness for C7: with every file written and SHA resolution failing,
the directory injection succeeds and records the "unknown" sentinel. -/
theorem c7_unknown_revision_witness :
    injectDirectory c7Src noFwErr (fun s => s) (str "T") (fun _ => none) []
      ⟨str "o", str "r", str "skill", str "v"⟩ (str ".github/skills/s") (str ".") =
      (.ok (), fsWrite (fun _ => none) (str ".github/skills/s/a.md") (str "A"),
        lockSet (fun s => s) [] (str "skills") (goBase (str ".github/skills/s"))
          (rawStr ⟨str "o", str "r", str "skill", str "v"⟩) (str "unknown")
          (trimPrefix (str ".github/skills/s") (str "." ++ str "/"))
          (computeDirectoryChecksum [(str "a.md", str "A")]) (str "T")) :=
  c7_unknown_revision c7Src noFwErr (fun s => s) (str "T") (fun _ => none) []
    ⟨str "o", str "r", str "skill", str "v"⟩ (str ".github/skills/s") (str ".")
    [⟨str "skill/a.md", str "blob", str "s1"⟩]
    (fsWrite (fun _ => none) (str ".github/skills/s/a.md") (str "A"))
    [(str "a.md", str "A")] (str "nope") rfl rfl rfl rfl

/-!  Manifest and removal (internal/manifest, cli unuse). -/

/-- Model of `manifest.Manifest`: four sections mapping asset names to raw
reference strings. -/
structure Manifest where
  instructions : List (GoStr × GoStr)
  agents : List (GoStr × GoStr)
  prompts : List (GoStr × GoStr)
  skills : List (GoStr × GoStr)
deriving DecidableEq, Repr

/-- Model of `Manifest.Section`: the map for the given asset type name. -/
def manifestSection (m : Manifest) (t : GoStr) : Except GoStr (List (GoStr × GoStr)) :=
  if t = str "instructions" then .ok m.instructions
  else if t = str "agents" then .ok m.agents
  else if t = str "prompts" then .ok m.prompts
  else if t = str "skills" then .ok m.skills
  else .error (str "unknown asset type: " ++ t)

/-- Replaces the section of the given asset type (the in-place map
mutation of the Go code). -/
def manifestSetSection (m : Manifest) (t : GoStr) (s : List (GoStr × GoStr)) : Manifest :=
  if t = str "instructions" then { m with instructions := s }
  else if t = str "agents" then { m with agents := s }
  else if t = str "prompts" then { m with prompts := s }
  else if t = str "skills" then { m with skills := s }
  else m

/-- Model of `Manifest.Remove`: reports whether the entry existed and
deletes it when it does. -/
def manifestRemove (m : Manifest) (t n : GoStr) : Except GoStr (Bool × Manifest) :=
  match manifestSection m t with
  | .error e => .error e
  | .ok sec =>
    match mapGet sec n with
    | none => .ok (false, m)
    | some _ => .ok (true, manifestSetSection m t (mapDelete sec n))

/-- Model of `os.RemoveAll`: deletes the path and everything under it;
deleting an absent path succeeds. -/
def removeAllFs (fs : FsState) (p : GoStr) : FsState :=
  fun q => if q = p ∨ (p ++ str "/").isPrefixOf q = true then none else fs q

/-- Model of `cli.runUnuseWith` (with the manifest and lock supplied as
already-loaded values): validate the type, remove the manifest entry
(failing when it was not declared), delete the target path recursively,
remove the lock entry, and save manifest then lock. -/
def runUnuseWith (fw : FwErr) (m : Manifest) (lock : Lock) (fs : FsState)
    (typeName name rootDir : GoStr) : Except GoStr Unit × Manifest × Lock × FsState :=
  if isValidType typeName = false then
    (.error (str "invalid asset type: " ++ typeName), m, lock, fs)
  else
    match manifestRemove m typeName name with
    | .error e => (.error e, m, lock, fs)
    | .ok (removed, m') =>
      if removed = false then
        (.error (typeName ++ ('/' :: name) ++ str " not found in copilot.toml"),
          m', lock, fs)
      else
        if fw.removeAllFail (goJoin2 rootDir (targetPath typeName name)) then
          (.error (str "deleting " ++ goJoin2 rootDir (targetPath typeName name)),
            m', lock, fs)
        else
          if fw.saveManifestFail then
            (.error (str "saving manifest"), m', lockRemove lock typeName name,
              removeAllFs fs (goJoin2 rootDir (targetPath typeName name)))
          else if fw.saveLockFail then
            (.error (str "saving lock file"), m', lockRemove lock typeName name,
              removeAllFs fs (goJoin2 rootDir (targetPath typeName name)))
          else
            (.ok (), m', lockRemove lock typeName name,
              removeAllFs fs (goJoin2 rootDir (targetPath typeName name)))

/-- C8: removing an undeclared (type, name) pair fails with the
not-declared error and performs no manifest, filesystem or lock mutation;
removing a declared pair deletes the target path recursively (with no
precondition that the path exist) and then removes the lock entry, in that
order — in particular a failing deletion leaves the lock entry in
place. -/
theorem c8_remove_semantics :
    (∀ (fw : FwErr) (m : Manifest) (lock : Lock) (fs : FsState)
       (t n rootDir : GoStr) (sec : List (GoStr × GoStr)),
      isValidType t = true →
      manifestSection m t = .ok sec →
      mapGet sec n = none →
      runUnuseWith fw m lock fs t n rootDir =
        (.error (t ++ ('/' :: n) ++ str " not found in copilot.toml"), m, lock, fs)) ∧
    (∀ (fw : FwErr) (m : Manifest) (lock : Lock) (fs : FsState)
       (t n rootDir : GoStr) (sec : List (GoStr × GoStr)) (v : GoStr),
      isValidType t = true →
      manifestSection m t = .ok sec →
      mapGet sec n = some v →
      fw.removeAllFail (goJoin2 rootDir (targetPath t n)) = false →
      fw.saveManifestFail = false →
      fw.saveLockFail = false →
      runUnuseWith fw m lock fs t n rootDir =
        (.ok (), manifestSetSection m t (mapDelete sec n),
          lockRemove lock t n, removeAllFs fs (goJoin2 rootDir (targetPath t n)))) ∧
    (∀ (fw : FwErr) (m : Manifest) (lock : Lock) (fs : FsState)
       (t n rootDir : GoStr) (sec : List (GoStr × GoStr)) (v : GoStr),
      isValidType t = true →
      manifestSection m t = .ok sec →
      mapGet sec n = some v →
      fw.removeAllFail (goJoin2 rootDir (targetPath t n)) = true →
      runUnuseWith fw m lock fs t n rootDir =
        (.error (str "deleting " ++ goJoin2 rootDir (targetPath t n)),
          manifestSetSection m t (mapDelete sec n), lock, fs)) := by
  refine ⟨?_, ?_, ?_⟩
  · intro fw m lock fs t n rootDir sec hvalid hsec hget
    have hrem : manifestRemove m t n = .ok (false, m) := by
      unfold manifestRemove
      rw [hsec]
      dsimp only
      rw [hget]
    unfold runUnuseWith
    rw [hvalid]
    simp [hrem]
  · intro fw m lock fs t n rootDir sec v hvalid hsec hget hrm hsm hsl
    have hrem : manifestRemove m t n =
        .ok (true, manifestSetSection m t (mapDelete sec n)) := by
      unfold manifestRemove
      rw [hsec]
      dsimp only
      rw [hget]
    unfold runUnuseWith
    rw [hvalid]
    simp [hrem, hrm, hsm, hsl]
  · intro fw m lock fs t n rootDir sec v hvalid hsec hget hrm
    have hrem : manifestRemove m t n =
        .ok (true, manifestSetSection m t (mapDelete sec n)) := by
      unfold manifestRemove
      rw [hsec]
      dsimp only
      rw [hget]
    unfold runUnuseWith
    rw [hvalid]
    simp [hrem, hrm]

/-- Witness for C8: removing the undeclared agents/helper pair on a
concrete manifest fails and changes nothing. -/
theorem c8_remove_semantics_witness :
    runUnuseWith noFwErr ⟨[], [(str "other", str "o/r/p@v")], [], []⟩ [] (fun _ => none)
      (str "agents") (str "helper") (str ".") =
      (.error (str "agents" ++ ('/' :: str "helper") ++ str " not found in copilot.toml"),
        ⟨[], [(str "other", str "o/r/p@v")], [], []⟩, [], fun _ => none) :=
  c8_remove_semantics.1 noFwErr ⟨[], [(str "other", str "o/r/p@v")], [], []⟩ []
    (fun _ => none) (str "agents") (str "helper") (str ".")
    [(str "other", str "o/r/p@v")] rfl rfl rfl

/-!  Lock serialization (internal/manifest/lock.go, LockFile.Save via
json.MarshalIndent: struct fields are emitted in declaration order and Go
map keys are emitted sorted; indentation and JSON string escaping are not
modelled byte-exactly). -/

/-- A JSON string literal (escaping not modelled). -/
def jstr (s : GoStr) : GoStr := '"' :: (s ++ ['"'])

/-- Serialization of one `LockEntry` with its fields in the fixed struct
declaration order. -/
def marshalLockEntry (e : LockEntry) : GoStr :=
  str "\x7b\"type\": " ++ jstr e.type ++
  (str ", \"name\": " ++ jstr e.name) ++
  (str ", \"ref\": " ++ jstr e.ref) ++
  (str ", \"resolved_sha\": " ++ jstr e.resolvedSHA) ++
  (str ", \"target_path\": " ++ jstr e.targetPath) ++
  (str ", \"checksum\": " ++ jstr e.checksum) ++
  (str ", \"synced_at\": " ++ jstr e.syncedAt) ++ str "\x7d"

/-- Model of `LockFile.Save`'s serialization: the version field followed
by the entries object with its keys in sorted order. -/
def marshalLock (version : Nat) (entries : Lock) : GoStr :=
  str "\x7b\"version\": " ++ natToStr version ++ (str ", \"entries\": \x7b") ++
  List.intercalate (str ", ")
    ((sortStrings (entries.map (fun kv => kv.1))).map
      (fun k => jstr k ++
        (str ": " ++ marshalLockEntry ((mapGet entries k).getD zeroLockEntry)))) ++
  str "\x7d\x7d"

/-- C9: serializing a LockState is deterministic — two in-memory entry
maps holding the same entries (in any order, timestamps included as
stored fields) serialize to byte-identical output — and the entry keys are
emitted in sorted order. -/
theorem c9_lock_serialization_deterministic (version : Nat) (l₁ l₂ : Lock)
    (hperm : l₁.Perm l₂) (hnd : (l₁.map Prod.fst).Nodup) :
    marshalLock version l₁ = marshalLock version l₂ ∧
    List.Sorted strLeProp (sortStrings (l₁.map (fun kv => kv.1))) := by
  have hkeys : (l₁.map Prod.fst).Perm (l₂.map Prod.fst) := hperm.map _
  constructor
  · unfold marshalLock
    have hfst : ∀ l : Lock, l.map (fun kv => kv.1) = l.map Prod.fst := fun _ => rfl
    rw [hfst, hfst, sortStrings_eq_of_perm hkeys]
    have hfuneq : (sortStrings (l₂.map Prod.fst)).map
        (fun k => jstr k ++
          (str ": " ++ marshalLockEntry ((mapGet l₁ k).getD zeroLockEntry))) =
        (sortStrings (l₂.map Prod.fst)).map
        (fun k => jstr k ++
          (str ": " ++ marshalLockEntry ((mapGet l₂ k).getD zeroLockEntry))) := by
      apply List.map_congr_left
      intro k hk
      have hk₂ : k ∈ l₂.map Prod.fst := (sortStrings_perm _).mem_iff.mp hk
      have hk₁ : k ∈ l₁.map Prod.fst := hkeys.symm.mem_iff.mp hk₂
      rw [mapGet_perm hperm hnd k hk₁]
    rw [hfuneq]
  · exact sortStrings_sorted _

/-- Witness for C9: the two orderings of a concrete two-entry lock state
serialize to identical bytes. -/
theorem c9_lock_serialization_deterministic_witness :
    marshalLock 1
      [(str "b/x", ⟨str "b", str "x", str "r1", str "s1", str "p1", str "c1", str "t1"⟩),
       (str "a/y", ⟨str "a", str "y", str "r2", str "s2", str "p2", str "c2", str "t2"⟩)] =
    marshalLock 1
      [(str "a/y", ⟨str "a", str "y", str "r2", str "s2", str "p2", str "c2", str "t2"⟩),
       (str "b/x", ⟨str "b", str "x", str "r1", str "s1", str "p1", str "c1", str "t1"⟩)] :=
  (c9_lock_serialization_deterministic 1
    [(str "b/x", ⟨str "b", str "x", str "r1", str "s1", str "p1", str "c1", str "t1"⟩),
     (str "a/y", ⟨str "a", str "y", str "r2", str "s2", str "p2", str "c2", str "t2"⟩)]
    [(str "a/y", ⟨str "a", str "y", str "r2", str "s2", str "p2", str "c2", str "t2"⟩),
     (str "b/x", ⟨str "b", str "x", str "r1", str "s1", str "p1", str "c1", str "t1"⟩)]
    (List.Perm.swap _ _ _) (by decide)).1
